import Mathlib

/-!
# Verification of the apksig APK signing-block parser

Shallow embedding of the current revision of `src/apksig.cpp` /
`include/apksig/apksig.hpp`: a reverse byte scanner over a seekable stream,
a generic length-prefixed sequence decoder, the scheme-v2 entity parsers,
and the signing-block locator (`siginfo::parse`).

Conventions of the embedding:
* a C++ `std::istream` over a file becomes `Stream` (a byte-valued function
  together with a length); stream positions are `Int` (like `std::streampos`,
  which is signed and for which the code uses `-1` as a sentinel);
* reads past the end of the stream, or at a negative position, fail with
  `Err.shortRead` (the `ifstream` has `failbit`/`badbit` exceptions enabled,
  so a failed `read`/`seekg` throws);
* `uint32_t` / `uint64_t` arithmetic is `Nat` with explicit `% 2^32` /
  `% 2^64` where the C++ can overflow;
* the two C++ loops that are not structurally recursive (the reverse-scan
  window loop and the sequence-decoder loop, whose iteration counts depend on
  data read from the stream) take a fuel argument; the callers in `parse`
  supply enough fuel that exhaustion corresponds to a C++ execution that
  diverges or runs longer than any input-derived bound;
* bytes coming from a file are values `< 256`; the embedding does not enforce
  this on arbitrary `Stream`s, and all concrete streams used below are
  byte-valued.
-/

namespace Apksig

/-- Decidable equality for `Except` results (not provided by the core
library), so that concrete runs of the embedded code can be checked by
`decide`. -/
instance {ε α : Type} [DecidableEq ε] [DecidableEq α] : DecidableEq (Except ε α) := by
  intro x y
  cases x <;> cases y
  case error.error a b =>
    cases decEq a b with
    | isTrue h => exact isTrue (by rw [h])
    | isFalse h => exact isFalse (by intro hc; cases hc; exact h rfl)
  case error.ok a b => exact isFalse (by intro hc; cases hc)
  case ok.error a b => exact isFalse (by intro hc; cases hc)
  case ok.ok a b =>
    cases decEq a b with
    | isTrue h => exact isTrue (by rw [h])
    | isFalse h => exact isFalse (by intro hc; cases hc; exact h rfl)

/-- Error kinds of the C++ code: `shortRead` for iostream failures
(failed `read`/`seekg`), `notZip` and `magicMismatch` for the two
`parse_error` throws in `siginfo::parse`, `incompleteSeq` for the
`"Incomplete sequence"` `runtime_error` of `parse_len_prefixed_seq`,
and `fuel` for loop iteration counts beyond the modelled bound. -/
inductive Err where
  | shortRead
  | notZip
  | magicMismatch
  | incompleteSeq
  | fuel
deriving DecidableEq, Repr

/-- A random-access byte source: the open file underlying the
`std::istream`.  `data i` is the byte at offset `i` (meaningful for
`i < len`). -/
structure Stream where
  data : Nat → Nat
  len : Nat

/-- A stream whose contents are the given list of bytes. -/
def Stream.ofList (l : List Nat) : Stream :=
  ⟨fun i => l.getD i 0, l.length⟩

/-- Embedding of `le_to_host<T>`: little-endian value of `w` bytes starting at
absolute offset `q`. -/
def leVal (s : Stream) : Nat → Nat → Nat
  | 0, _ => 0
  | w + 1, q => s.data q + 256 * leVal s w (q + 1)

/-- Embedding of `read_le<T>`: read a `w`-byte little-endian unsigned integer at
position `p`, returning the value and the advanced position.  A read at a
negative position or past the end of the stream throws (`failbit`). -/
def readLe (w : Nat) (s : Stream) (p : Int) : Except Err (Nat × Int) :=
  if 0 ≤ p ∧ p + w ≤ s.len then .ok (leVal s w p.toNat, p + w) else .error .shortRead

/-- Embedding of `read_into_vector` / `read_into_array`: read `n` raw bytes at
position `p`. -/
def readBytes (n : Nat) (s : Stream) (p : Int) : Except Err (List Nat × Int) :=
  if 0 ≤ p ∧ p + n ≤ s.len then
    .ok ((List.range n).map fun j => s.data (p.toNat + j), p + n)
  else .error .shortRead

/-! ## The entity tree (`apksig.hpp`, current revision) -/

structure Digest where
  sigAlgoId : Nat
  digestData : List Nat
deriving DecidableEq, Repr

abbrev Certificate := List Nat

structure AddAttr where
  id : Nat
  value : List Nat
deriving DecidableEq, Repr

structure V2SignedData where
  digests : List Digest
  certificates : List Certificate
  addAttrs : List AddAttr
deriving DecidableEq, Repr

structure Signature where
  sigAlgoId : Nat
  signatureData : List Nat
deriving DecidableEq, Repr

abbrev PublicKey := List Nat

structure V2Signer where
  signedData : V2SignedData
  signatures : List Signature
  publicKey : PublicKey
deriving DecidableEq, Repr

structure V2Block where
  signers : List V2Signer
deriving DecidableEq, Repr

/-! ## The generic length-prefixed sequence decoder

`parse_len_prefixed_seq(seq_len, is, f)`: repeatedly read a `u32` length,
run `f` on it, and accumulate `4 + len` into a `uint32_t` running total
(`parsed_len`), until the total is no longer `< seq_len`; throw
`"Incomplete sequence"` as soon as the total exceeds `seq_len`. -/

/-- Loop body of `parse_len_prefixed_seq`, with the running total `acc`
(`parsed_len`, a `uint32_t`, hence the `% 2^32`) made explicit. -/
def seqAux (s : Stream) (seqLen : Nat) (f : Nat → Int → Except Err (α × Int)) :
    Nat → Nat → Int → Except Err (List α × Int)
  | fuel, acc, p =>
    if acc < seqLen then
      match fuel with
      | 0 => .error .fuel
      | fuel + 1 =>
        match readLe 4 s p with
        | .error e => .error e
        | .ok (len, p1) =>
          match f len p1 with
          | .error e => .error e
          | .ok (x, p2) =>
            let acc' := (acc + 4 + len) % 2 ^ 32
            if seqLen < acc' then .error .incompleteSeq
            else
              match seqAux s seqLen f fuel acc' p2 with
              | .error e => .error e
              | .ok (xs, p3) => .ok (x :: xs, p3)
    else .ok ([], p)

/-- Embedding of `parse_len_prefixed_seq(seq_len, is, f)`. -/
def parseLenPrefixedSeq (fuel : Nat) (s : Stream) (seqLen : Nat)
    (f : Nat → Int → Except Err (α × Int)) (p : Int) : Except Err (List α × Int) :=
  seqAux s seqLen f fuel 0 p

/-! ## The v2 entity parsers (`parse_digest` … `parse_v2_block`) -/

/-- Embedding of `parse_digest(len, is)`: `u32` algorithm id, `u32` data length, then
that many bytes.  The declared `len` parameter is ignored by the source. -/
def parseDigest (s : Stream) (_len : Nat) (p : Int) : Except Err (Digest × Int) := do
  let (sigAlgoId, p) ← readLe 4 s p
  let (digestDataLen, p) ← readLe 4 s p
  let (digestData, p) ← readBytes digestDataLen s p
  return (⟨sigAlgoId, digestData⟩, p)

/-- Embedding of `parse_certificate(len, is)`: `len` raw bytes. -/
def parseCertificate (s : Stream) (len : Nat) (p : Int) : Except Err (Certificate × Int) :=
  readBytes len s p

/-- Embedding of `parse_add_attr(len, is)`: `u32` id, `u32` value length, then that many
bytes.  The declared `len` parameter is ignored by the source. -/
def parseAddAttr (s : Stream) (_len : Nat) (p : Int) : Except Err (AddAttr × Int) := do
  let (id, p) ← readLe 4 s p
  let (valueLen, p) ← readLe 4 s p
  let (value, p) ← readBytes valueLen s p
  return (⟨id, value⟩, p)

/-- Embedding of `parse_v2_signed_data(len, is)`: three length-prefixed sequences
(digests, certificates, additional attributes), then one further `u32`
read into the unused local `x` and discarded.  The declared `len`
parameter is ignored by the source. -/
def parseV2SignedData (fuel : Nat) (s : Stream) (_len : Nat) (p : Int) :
    Except Err (V2SignedData × Int) := do
  let (digestsSeqLen, p) ← readLe 4 s p
  let (digests, p) ← parseLenPrefixedSeq fuel s digestsSeqLen (parseDigest s) p
  let (certificatesSeqLen, p) ← readLe 4 s p
  let (certificates, p) ← parseLenPrefixedSeq fuel s certificatesSeqLen (parseCertificate s) p
  let (addAttrsSeqLen, p) ← readLe 4 s p
  let (addAttrs, p) ← parseLenPrefixedSeq fuel s addAttrsSeqLen (parseAddAttr s) p
  let (_x, p) ← readLe 4 s p
  return (⟨digests, certificates, addAttrs⟩, p)

/-- Embedding of `parse_signature(len, is)`: `u32` algorithm id, `u32` data length, then
that many bytes.  The declared `len` parameter is ignored by the source. -/
def parseSignature (s : Stream) (_len : Nat) (p : Int) : Except Err (Signature × Int) := do
  let (sigAlgoId, p) ← readLe 4 s p
  let (sigDataLen, p) ← readLe 4 s p
  let (sigData, p) ← readBytes sigDataLen s p
  return (⟨sigAlgoId, sigData⟩, p)

/-- Embedding of `parse_public_key(len, is)`: `len` raw bytes. -/
def parsePublicKey (s : Stream) (len : Nat) (p : Int) : Except Err (PublicKey × Int) :=
  readBytes len s p

/-- Embedding of `parse_v2_signer(len, is)`: `u32` signed-data length, signed data,
`u32` signatures sequence length, signature sequence, `u32` public-key
length, public key.  The declared `len` parameter is ignored. -/
def parseV2Signer (fuel : Nat) (s : Stream) (_len : Nat) (p : Int) :
    Except Err (V2Signer × Int) := do
  let (signedDataLen, p) ← readLe 4 s p
  let (signedData, p) ← parseV2SignedData fuel s signedDataLen p
  let (signaturesSeqLen, p) ← readLe 4 s p
  let (signatures, p) ← parseLenPrefixedSeq fuel s signaturesSeqLen (parseSignature s) p
  let (publicKeyLen, p) ← readLe 4 s p
  let (publicKey, p) ← parsePublicKey s publicKeyLen p
  return (⟨signedData, signatures, publicKey⟩, p)

/-- Embedding of `parse_v2_block(len, is)`: the signer sequence, with byte budget `len`. -/
def parseV2Block (fuel : Nat) (s : Stream) (len : Nat) (p : Int) :
    Except Err (V2Block × Int) := do
  let (signers, p) ← parseLenPrefixedSeq fuel s len (parseV2Signer fuel s) p
  return (⟨signers⟩, p)

/-! ## The reverse byte scanner (`reverse_find_bytes`) -/

/-- The backward scan of one combined window buffer `wf`, mirroring the
`for (auto it = window_buffer.crbegin() + pat_size; it != window_buffer.crend(); it++)`
loop: candidate start indices run from `i` down to `0`, and the first
(i.e. highest) index whose `pat.length`-byte slice equals `pat` is
returned. -/
def scanBack (wf pat : List Nat) : Nat → Option Nat
  | 0 => if (wf.drop 0).take pat.length = pat then some 0 else none
  | i + 1 =>
    if (wf.drop (i + 1)).take pat.length = pat then some (i + 1)
    else scanBack wf pat i

/-- Scan of a whole window buffer: the C++ iterator starts at
`crbegin() + pat_size`, so the first candidate start index is
`wf.length - pat.length - 1` (when `wf.length ≤ pat.length` the loop body
never runs). -/
def scanWindow (wf pat : List Nat) : Option Nat :=
  if wf.length ≤ pat.length then none
  else scanBack wf pat (wf.length - pat.length - 1)

/-- Window loop of `reverse_find_bytes`: read the window
`[max 0 (cp - wsize), cp)`, append the carry from the previous (later)
window, scan backward, and on failure continue with the first
`pat.length - 1` bytes of the combined buffer as new carry.  `fuel`
bounds the iteration count (each iteration decreases `cp` by at least
one, so the caller's `cp₀ + 1` suffices). -/
def rfbLoop (s : Stream) (pat : List Nat) (wsize : Nat) :
    Nat → Int → List Nat → Except Err Int
  | 0, _, _ => .error .fuel
  | fuel + 1, cp, carry =>
    if 0 < cp then
      let pos : Int := max 0 (cp - wsize)
      match readBytes (cp - pos).toNat s pos with
      | .error e => .error e
      | .ok (wdata, _) =>
        let wf := wdata ++ carry
        match scanWindow wf pat with
        | some i => .ok (pos + i)
        | none => rfbLoop s pat wsize fuel pos (wf.take (pat.length - 1))
    else .ok (-1)

/-- Embedding of `reverse_find_bytes(is, pat_first, pat_last, start)`: find the pattern
scanning backward from `start` (default `-1`, meaning end of stream);
`-1` is also the not-found result.  The initial carry buffer is the
zero-initialised `std::vector` of `pat.length - 1` bytes.  `seekg` to a
negative position other than the `-1` sentinel throws. -/
def reverseFindBytes (s : Stream) (pat : List Nat) (start : Int := -1) : Except Err Int :=
  if start = -1 then
    rfbStart s pat s.len
  else if start < 0 then .error .shortRead
  else rfbStart s pat start
where
  /-- Body after the seek: the `pat_size == 0` early return, then the
  window loop from `cp` with a zeroed carry. -/
  rfbStart (s : Stream) (pat : List Nat) (cp : Int) : Except Err Int :=
    if pat.length = 0 then .ok (-1)
    else
      rfbLoop s pat (max 4096 pat.length) (cp.toNat + 1) cp
        (List.replicate (pat.length - 1) 0)

/-! ## The signing-block locator (`siginfo`) -/

def v2Id : Nat := 0x7109871a
def v3Id : Nat := 0xf05368c0
def v31Id : Nat := 0x1b93ad61

/-- The 4 EOCD magic bytes `50 4B 05 06`. -/
def eocdMagic : List Nat := [0x50, 0x4B, 0x05, 0x06]

/-- The 16 ASCII bytes of `"APK Sig Block 42"`. -/
def apkMagic : List Nat :=
  [0x41, 0x50, 0x4B, 0x20, 0x53, 0x69, 0x67, 0x20,
   0x42, 0x6C, 0x6F, 0x63, 0x6B, 0x20, 0x34, 0x32]

/-- The mutable state of a `siginfo` object: the three recorded positions
(streampos sentinels `-1`) and the decoded v2 block (a default-constructed
`v2_block` holds no signers). -/
structure SigInfo where
  v2BlockPos : Int := -1
  v3BlockPos : Int := -1
  v31BlockPos : Int := -1
  v2Block : V2Block := ⟨[]⟩
deriving DecidableEq, Repr

/-- A freshly constructed `siginfo` (before any `parse` call). -/
def SigInfo.init : SigInfo := {}

/-- Embedding of `has_v2_block()`. -/
def SigInfo.hasV2Block (si : SigInfo) : Bool := si.v2BlockPos != -1

/-- Embedding of `has_v3_block()`. -/
def SigInfo.hasV3Block (si : SigInfo) : Bool := si.v3BlockPos != -1

/-- Embedding of `has_v3_1_block()`. -/
def SigInfo.hasV31Block (si : SigInfo) : Bool := si.v31BlockPos != -1

/-- Embedding of `i += static_cast<std::streamoff>(pair_len + 8)`: the `uint64_t` sum
wraps at `2^64` and is then reinterpreted as a signed 64-bit offset. -/
def pairAdvance (pairLen : Nat) : Int :=
  let v : Nat := (pairLen + 8) % 2 ^ 64
  if v < 2 ^ 63 then (v : Int) else (v : Int) - 2 ^ 64

/-- One-or-more iterations of the id/value pair walk in `siginfo::parse`.
Returns the (possibly partially mutated) state together with `none` on
normal exit or `some e` when an exception escapes: C++ exceptions leave
the already-performed member mutations in place, so the state travels
alongside the error.  The v2 branch records `tellg()` (the position just
after the id) *before* reading the `u32` block length and decoding. -/
def walkLoop (s : Stream) (endPos : Int) :
    Nat → Int → SigInfo → SigInfo × Option Err
  | fuel, i, si =>
    if i < endPos then
      match fuel with
      | 0 => (si, some .fuel)
      | fuel + 1 =>
        match readLe 8 s i with
        | .error e => (si, some e)
        | .ok (pairLen, p1) =>
          match readLe 4 s p1 with
          | .error e => (si, some e)
          | .ok (id, p2) =>
            if id = v2Id then
              let si := { si with v2BlockPos := p2 }
              match readLe 4 s p2 with
              | .error e => (si, some e)
              | .ok (v2BlockLen, p3) =>
                match parseV2Block (s.len + 1) s v2BlockLen p3 with
                | .error e => (si, some e)
                | .ok (blk, _) =>
                  walkLoop s endPos fuel (i + pairAdvance pairLen) { si with v2Block := blk }
            else if id = v3Id then
              walkLoop s endPos fuel (i + pairAdvance pairLen) { si with v3BlockPos := p2 }
            else if id = v31Id then
              walkLoop s endPos fuel (i + pairAdvance pairLen) { si with v31BlockPos := p2 }
            else
              walkLoop s endPos fuel (i + pairAdvance pairLen) si
    else (si, none)

/-- Fuel supplied to the pair walk: enough for any terminating execution
whose position either only advances (at most the region length in steps)
or drifts below zero (at most the start offset further steps before a
read at a negative position throws). -/
def walkFuel (startPos endPos : Int) : Nat :=
  (endPos - startPos).toNat + startPos.toNat + 2

/-- Embedding of `siginfo::parse()`: locate the EOCD record, follow the central-directory
offset back to the signing-block magic, read the block size, and walk the
id/value pair region.  Like `walkLoop`, returns the final object state
together with the escaping exception, if any. -/
def parse (s : Stream) (si : SigInfo) : SigInfo × Option Err :=
  match reverseFindBytes s eocdMagic with
  | .error e => (si, some e)
  | .ok eocdMagicPos =>
    if eocdMagicPos = -1 then (si, some .notZip)
    else
      match readLe 4 s (eocdMagicPos + 16) with
      | .error e => (si, some e)
      | .ok (offsetOfStartOfCd, _) =>
        let startOfCdPos : Int := offsetOfStartOfCd
        let apkSigMagicPos := startOfCdPos - 16
        match readBytes 16 s apkSigMagicPos with
        | .error e => (si, some e)
        | .ok (magic, _) =>
          if magic ≠ apkMagic then (si, some .magicMismatch)
          else
            let apkSigSizeOfBlockPos := apkSigMagicPos - 8
            match readLe 8 s apkSigSizeOfBlockPos with
            | .error e => (si, some e)
            | .ok (apkSigSizeOfBlock, _) =>
              let pairsPos := startOfCdPos - apkSigSizeOfBlock
              walkLoop s apkSigSizeOfBlockPos
                (walkFuel pairsPos apkSigSizeOfBlockPos) pairsPos si

/-! ## Spec-side definitions

The repository contains no encoder (re-encoding a signing block is an
explicit non-goal), so the synthetic-block encoder needed by the
round-trip property is modelled from the spec's binary layout contract
(§6: every record is a `u32` little-endian length followed by that many
bytes; §4.6 fixes the field order of each entity). -/

/-- Modelled from the spec: a `u32 LE` field (§6, binary layout contract). -/
def encodeU32 (n : Nat) : List Nat :=
  [n % 256, n / 256 % 256, n / 2 ^ 16 % 256, n / 2 ^ 24 % 256]

/-- Modelled from the spec: a length-prefixed sequence, each record a
`u32` length followed by its payload (§4.4). -/
def seqEncode (e : α → List Nat) (items : List α) : List Nat :=
  items.foldr (fun a r => encodeU32 (e a).length ++ e a ++ r) []

/-- Modelled from the spec: Digest record payload — `u32` algorithm id,
`u32` length, then that many bytes (§4.6). -/
def digestPayload (d : Digest) : List Nat :=
  encodeU32 d.sigAlgoId ++ encodeU32 d.digestData.length ++ d.digestData

/-- Modelled from the spec: Certificate record payload — raw bytes (§4.6). -/
def certPayload (c : Certificate) : List Nat := c

/-- Modelled from the spec: AdditionalAttribute record payload — `u32` id,
`u32` length, then that many bytes (§4.6). -/
def attrPayload (a : AddAttr) : List Nat :=
  encodeU32 a.id ++ encodeU32 a.value.length ++ a.value

/-- Modelled from the spec: Signature record payload — `u32` algorithm id,
`u32` length, then that many bytes (§4.6). -/
def sigPayload (sg : Signature) : List Nat :=
  encodeU32 sg.sigAlgoId ++ encodeU32 sg.signatureData.length ++ sg.signatureData

/-- Modelled from the spec: SignedData — three length-prefixed sequences
(digests, certificates, attributes), each preceded by its `u32` byte
length (§4.6). -/
def encodeSignedData (sd : V2SignedData) : List Nat :=
  let d := seqEncode digestPayload sd.digests
  let c := seqEncode certPayload sd.certificates
  let a := seqEncode attrPayload sd.addAttrs
  encodeU32 d.length ++ d ++ encodeU32 c.length ++ c ++ encodeU32 a.length ++ a

/-- Modelled from the spec: Signer payload — `u32` signed-data length,
signed data, `u32` signatures-sequence length, signature sequence,
`u32` public-key length, public key (§4.6). -/
def signerPayload (sg : V2Signer) : List Nat :=
  let sd := encodeSignedData sg.signedData
  let ss := seqEncode sigPayload sg.signatures
  encodeU32 sd.length ++ sd ++ encodeU32 ss.length ++ ss ++
    encodeU32 sg.publicKey.length ++ sg.publicKey

/-- Signer payload amended for the decoder actually in the source: four
extra bytes (here zeros, their value is discarded by the decoder) follow
the signed data, accounted in the signer's record length but not in the
signed-data length field. -/
def signerPayloadPadded (sg : V2Signer) : List Nat :=
  let sd := encodeSignedData sg.signedData
  let ss := seqEncode sigPayload sg.signatures
  encodeU32 sd.length ++ sd ++ [0, 0, 0, 0] ++ encodeU32 ss.length ++ ss ++
    encodeU32 sg.publicKey.length ++ sg.publicKey

/-- Modelled from the spec: a whole v2 id/value pair value — the `u32`
byte length of the signer sequence followed by the sequence (§4.6, §6). -/
def encodeV2 (b : V2Block) : List Nat :=
  let body := seqEncode signerPayload b.signers
  encodeU32 body.length ++ body

/-- The padded variant of `encodeV2` (see `signerPayloadPadded`). -/
def encodeV2Padded (b : V2Block) : List Nat :=
  let body := seqEncode signerPayloadPadded b.signers
  encodeU32 body.length ++ body

/-- Decoding a v2 pair value the way `siginfo::parse` does: read the
`u32` signer-sequence length from the first four bytes, then run
`parse_v2_block` with that budget. -/
def decodeV2 (s : Stream) : Except Err (V2Block × Int) := do
  let (len, p) ← readLe 4 s 0
  parseV2Block (s.len + 1) s len p

/-! Well-formedness of a synthetic block: every `u32` field of its
encoding fits in 32 bits.  (Sequence byte lengths are covered by the
top-level length bounds in the theorems.) -/

def WFDigest (d : Digest) : Prop :=
  d.sigAlgoId < 2 ^ 32 ∧ d.digestData.length < 2 ^ 32

def WFAttr (a : AddAttr) : Prop :=
  a.id < 2 ^ 32 ∧ a.value.length < 2 ^ 32

def WFSig (sg : Signature) : Prop :=
  sg.sigAlgoId < 2 ^ 32 ∧ sg.signatureData.length < 2 ^ 32

def WFSignedData (sd : V2SignedData) : Prop :=
  (∀ d ∈ sd.digests, WFDigest d) ∧ (∀ a ∈ sd.addAttrs, WFAttr a) ∧
    (seqEncode digestPayload sd.digests).length < 2 ^ 32 ∧
    (seqEncode certPayload sd.certificates).length < 2 ^ 32 ∧
    (seqEncode attrPayload sd.addAttrs).length < 2 ^ 32

def WFSigner (sg : V2Signer) : Prop :=
  WFSignedData sg.signedData ∧ (∀ x ∈ sg.signatures, WFSig x) ∧
    (encodeSignedData sg.signedData).length < 2 ^ 32 ∧
    (seqEncode sigPayload sg.signatures).length < 2 ^ 32 ∧
    sg.publicKey.length < 2 ^ 32

def WFBlock (b : V2Block) : Prop :=
  (∀ sg ∈ b.signers, WFSigner sg) ∧
    (seqEncode signerPayloadPadded b.signers).length < 2 ^ 32

instance (d : Digest) : Decidable (WFDigest d) := by
  unfold WFDigest
  infer_instance

instance (a : AddAttr) : Decidable (WFAttr a) := by
  unfold WFAttr
  infer_instance

instance (sg : Signature) : Decidable (WFSig sg) := by
  unfold WFSig
  infer_instance

instance (sd : V2SignedData) : Decidable (WFSignedData sd) := by
  unfold WFSignedData
  infer_instance

instance (sg : V2Signer) : Decidable (WFSigner sg) := by
  unfold WFSigner
  infer_instance

instance (b : V2Block) : Decidable (WFBlock b) := by
  unfold WFBlock
  infer_instance

/-- The running total of the sequence decoder (claim C3's amended
reading): fold the `uint32_t` update `acc ↦ (acc + 4 + L) % 2^32` over
the declared record lengths. -/
def wrapTotals (Ls : List Nat) (acc : Nat) : Nat :=
  Ls.foldl (fun a l => (a + 4 + l) % 2 ^ 32) acc

/-- The pattern `pat` occurs in the stream at position `q` (a spec-side
notion used to state the scanner's contract). -/
def OccursAt (s : Stream) (pat : List Nat) (q : Nat) : Prop :=
  q + pat.length ≤ s.len ∧ ∀ j < pat.length, s.data (q + j) = pat.getD j 0

instance (s : Stream) (pat : List Nat) (q : Nat) : Decidable (OccursAt s pat q) := by
  unfold OccursAt
  infer_instance

/-- The bytes of `l` lie in the stream starting at position `p` (the
stream may extend further on either side). -/
def hasAt (s : Stream) (p : Int) (l : List Nat) : Prop :=
  0 ≤ p ∧ p + l.length ≤ s.len ∧ ∀ j < l.length, s.data (p.toNat + j) = l.getD j 0

instance (s : Stream) (p : Int) (l : List Nat) : Decidable (hasAt s p l) := by
  unfold hasAt
  infer_instance

/-- Claim C4's reading of the locator walk (a second definition following
the spec's words, for comparison with `walkLoop`): identical to the
source walk except that in the v2 branch the V2 Block Decoder is invoked
on the value itself with budget equal to the pair's declared value
length, `pair_length − 4`. -/
def walkLoopSpecC4 (s : Stream) (endPos : Int) :
    Nat → Int → SigInfo → SigInfo × Option Err
  | fuel, i, si =>
    if i < endPos then
      match fuel with
      | 0 => (si, some .fuel)
      | fuel + 1 =>
        match readLe 8 s i with
        | .error e => (si, some e)
        | .ok (pairLen, p1) =>
          match readLe 4 s p1 with
          | .error e => (si, some e)
          | .ok (id, p2) =>
            if id = v2Id then
              let si := { si with v2BlockPos := p2 }
              match parseV2Block (s.len + 1) s (pairLen - 4) p2 with
              | .error e => (si, some e)
              | .ok (blk, _) =>
                walkLoopSpecC4 s endPos fuel (i + pairAdvance pairLen) { si with v2Block := blk }
            else if id = v3Id then
              walkLoopSpecC4 s endPos fuel (i + pairAdvance pairLen) { si with v3BlockPos := p2 }
            else if id = v31Id then
              walkLoopSpecC4 s endPos fuel (i + pairAdvance pairLen) { si with v31BlockPos := p2 }
            else
              walkLoopSpecC4 s endPos fuel (i + pairAdvance pairLen) si
    else (si, none)

/-- Claim C4's reading of `siginfo::parse`: as `parse`, but the pair walk
uses the claimed budget (see `walkLoopSpecC4`). -/
def parseSpecC4 (s : Stream) (si : SigInfo) : SigInfo × Option Err :=
  match reverseFindBytes s eocdMagic with
  | .error e => (si, some e)
  | .ok eocdMagicPos =>
    if eocdMagicPos = -1 then (si, some .notZip)
    else
      match readLe 4 s (eocdMagicPos + 16) with
      | .error e => (si, some e)
      | .ok (offsetOfStartOfCd, _) =>
        let startOfCdPos : Int := offsetOfStartOfCd
        let apkSigMagicPos := startOfCdPos - 16
        match readBytes 16 s apkSigMagicPos with
        | .error e => (si, some e)
        | .ok (magic, _) =>
          if magic ≠ apkMagic then (si, some .magicMismatch)
          else
            let apkSigSizeOfBlockPos := apkSigMagicPos - 8
            match readLe 8 s apkSigSizeOfBlockPos with
            | .error e => (si, some e)
            | .ok (apkSigSizeOfBlock, _) =>
              let pairsPos := startOfCdPos - apkSigSizeOfBlock
              walkLoopSpecC4 s apkSigSizeOfBlockPos
                (walkFuel pairsPos apkSigSizeOfBlockPos) pairsPos si

/-! ## Concrete inputs used by the claims -/

/-- A 60-byte file: a signing block holding exactly one v2 id/value pair
whose value encodes zero signers, followed by the block size (40), the
16-byte APK magic, and a minimal EOCD whose central-directory offset
field points at offset 40. -/
def fileC8 : List Nat :=
  [0x08, 0, 0, 0, 0, 0, 0, 0] ++ [0x1a, 0x87, 0x09, 0x71] ++ [0, 0, 0, 0] ++
    [0x28, 0, 0, 0, 0, 0, 0, 0] ++ apkMagic ++
    [0x50, 0x4B, 0x05, 0x06] ++ List.replicate 12 0 ++ [0x28, 0, 0, 0]

/-- Variant of `fileC8` with the four value bytes of the v2 pair replaced by
`FF FF FF FF`: the declared signer-sequence budget then makes the decoder
read far past the end of the file, so `parse` fails by a short read —
after the v2 position has already been recorded. -/
def fileC7 : List Nat :=
  [0x08, 0, 0, 0, 0, 0, 0, 0] ++ [0x1a, 0x87, 0x09, 0x71] ++ [0xFF, 0xFF, 0xFF, 0xFF] ++
    [0x28, 0, 0, 0, 0, 0, 0, 0] ++ apkMagic ++
    [0x50, 0x4B, 0x05, 0x06] ++ List.replicate 12 0 ++ [0x28, 0, 0, 0]

/-- A 108-byte file whose pair region holds first a well-formed v2 pair
with one (empty) signer and then a v2 pair with a corrupt value: `parse`
decodes the first pair completely and then fails on the second. -/
def fileC6 : List Nat :=
  [0x28, 0, 0, 0, 0, 0, 0, 0] ++ [0x1a, 0x87, 0x09, 0x71] ++ [0x20, 0, 0, 0] ++
    [0x1C, 0, 0, 0] ++ [0x0C, 0, 0, 0] ++ List.replicate 12 0 ++
    [0, 0, 0, 0] ++ [0, 0, 0, 0] ++ [0, 0, 0, 0] ++
    [0x08, 0, 0, 0, 0, 0, 0, 0] ++ [0x1a, 0x87, 0x09, 0x71] ++ [0xFF, 0xFF, 0xFF, 0xFF] ++
    [0x58, 0, 0, 0, 0, 0, 0, 0] ++ apkMagic ++
    [0x50, 0x4B, 0x05, 0x06] ++ List.replicate 12 0 ++ [0x58, 0, 0, 0]

/-- The signer decoded from the first pair of `fileC6`. -/
def signerC6 : V2Signer := ⟨⟨[], [], []⟩, [], []⟩

/-- A minimal one-signer block (used against the round-trip claim). -/
def blockC5 : V2Block := ⟨[⟨⟨[], [], []⟩, [], []⟩]⟩

/-- A small synthetic block with one signer holding two digests, one
certificate, one attribute, one signature and a four-byte public key
(witness input for the amended round-trip). -/
def blockC5w : V2Block :=
  ⟨[⟨⟨[⟨0x0101, [1, 2]⟩, ⟨0x0102, []⟩], [[9, 9, 9]], [⟨0xbeef, [7]⟩]⟩,
     [⟨0x0103, [5, 6]⟩], [10, 11, 12, 13]⟩]⟩

/-- A small synthetic SignedData (witness input for the amended C1). -/
def sdC1w : V2SignedData :=
  ⟨[⟨0x0101, [1, 2]⟩, ⟨0x0102, []⟩], [[9, 9, 9]], [⟨0xbeef, [7]⟩]⟩

/-- A 40-byte file whose EOCD points at offset 16, where the sixteen
preceding bytes are zeros rather than the APK magic: `parse` fails with
a magic mismatch before the pair walk. -/
def fileMagicBad : List Nat :=
  List.replicate 20 0 ++ [0x50, 0x4B, 0x05, 0x06] ++ List.replicate 12 0 ++ [0x10, 0, 0, 0]

/-- The stream of claim C3's counterexample: a first record declaring
`2^32 − 4` bytes (so that `4 + len` wraps the 32-bit running total to 0)
followed by a second, empty record. -/
def streamC3 : Stream :=
  ⟨fun i => if i < 4 then [0xfc, 0xff, 0xff, 0xff].getD i 0 else 0, 2 ^ 32 + 4⟩

/-! ## Helper lemmas: reads over `hasAt` regions -/

theorem encodeU32_length (n : Nat) : (encodeU32 n).length = 4 := rfl

theorem hasAt_append_left {s : Stream} {p : Int} {a b : List Nat}
    (h : hasAt s p (a ++ b)) : hasAt s p a := by
  obtain ⟨h0, h1, h2⟩ := h
  refine ⟨h0, ?_, ?_⟩
  · rw [List.length_append] at h1
    omega
  · intro j hj
    have := h2 j (by rw [List.length_append]; omega)
    rwa [List.getD_append _ _ _ _ hj] at this

theorem hasAt_append_right {s : Stream} {p : Int} {a b : List Nat}
    (h : hasAt s p (a ++ b)) : hasAt s (p + a.length) b := by
  obtain ⟨h0, h1, h2⟩ := h
  rw [List.length_append] at h1
  refine ⟨by omega, by omega, ?_⟩
  intro j hj
  have := h2 (a.length + j) (by rw [List.length_append]; omega)
  have hidx : (p + (a.length : Int)).toNat = p.toNat + a.length := by omega
  rw [hidx, Nat.add_assoc]
  rw [List.getD_append_right _ _ _ _ (by omega), Nat.add_sub_cancel_left] at this
  exact this

theorem hasAt_len_le {s : Stream} {p : Int} {l : List Nat}
    (h : hasAt s p l) : 0 ≤ p ∧ p + l.length ≤ s.len :=
  ⟨h.1, h.2.1⟩

theorem hasAt_ofList (l : List Nat) : hasAt (Stream.ofList l) 0 l := by
  refine ⟨le_refl 0, by simp [Stream.ofList], ?_⟩
  intro j hj
  simp [Stream.ofList]

theorem readLe_of_bounds {w : Nat} {s : Stream} {p : Int}
    (h0 : 0 ≤ p) (h1 : p + w ≤ s.len) :
    readLe w s p = .ok (leVal s w p.toNat, p + w) := by
  unfold readLe
  rw [if_pos ⟨h0, h1⟩]

theorem leVal_encodeU32 {s : Stream} {q n : Nat}
    (h : ∀ j < 4, s.data (q + j) = (encodeU32 n).getD j 0) :
    leVal s 4 q = n % 2 ^ 32 := by
  have e0 := h 0 (by norm_num)
  have e1 := h 1 (by norm_num)
  have e2 := h 2 (by norm_num)
  have e3 := h 3 (by norm_num)
  simp only [encodeU32, List.getD_cons_zero, List.getD_cons_succ, Nat.add_zero] at e0 e1 e2 e3
  show s.data q + 256 * (s.data (q + 1) + 256 * (s.data (q + 1 + 1) +
      256 * (s.data (q + 1 + 1 + 1) + 256 * 0))) = n % 2 ^ 32
  have h11 : q + 1 + 1 = q + 2 := by omega
  have h111 : q + 1 + 1 + 1 = q + 3 := by omega
  rw [h11, h111, e0, e1, e2, e3]
  norm_num
  omega

theorem readLe_encodeU32 {s : Stream} {p : Int} {n : Nat}
    (h : hasAt s p (encodeU32 n)) (hn : n < 2 ^ 32) :
    readLe 4 s p = .ok (n, p + 4) := by
  obtain ⟨h0, h1, h2⟩ := h
  rw [encodeU32_length] at h1
  rw [readLe_of_bounds h0 (by exact_mod_cast h1)]
  have : leVal s 4 p.toNat = n % 2 ^ 32 := by
    apply leVal_encodeU32
    intro j hj
    exact h2 j (by rw [encodeU32_length]; omega)
  rw [this, Nat.mod_eq_of_lt hn]
  norm_num

theorem readBytes_hasAt {s : Stream} {p : Int} {l : List Nat}
    (h : hasAt s p l) : readBytes l.length s p = .ok (l, p + l.length) := by
  obtain ⟨h0, h1, h2⟩ := h
  unfold readBytes
  rw [if_pos ⟨h0, h1⟩]
  have : ((List.range l.length).map fun j => s.data (p.toNat + j)) = l := by
    apply List.ext_getElem
    · simp
    · intro j hj hj'
      simp only [List.getElem_map, List.getElem_range]
      rw [h2 j (by simpa using hj)]
      exact List.getD_eq_getElem l 0 hj'
  rw [this]

/-! ## Helper lemmas: the sequence decoder on encoded sequences -/

theorem seqEncode_nil (e : α → List Nat) : seqEncode e [] = [] := rfl

theorem seqEncode_cons (e : α → List Nat) (a : α) (l : List α) :
    seqEncode e (a :: l) = encodeU32 (e a).length ++ (e a ++ seqEncode e l) := rfl

theorem seqEncode_length_ge (e : α → List Nat) (items : List α) :
    4 * items.length ≤ (seqEncode e items).length := by
  induction items with
  | nil => simp [seqEncode]
  | cons a l ih =>
    rw [seqEncode_cons]
    simp only [List.length_append, List.length_cons, encodeU32_length]
    omega

theorem seqAux_stop {α : Type} {s : Stream} {seqLen : Nat}
    {f : Nat → Int → Except Err (α × Int)} {fuel acc : Nat} {p : Int}
    (h : ¬ acc < seqLen) : seqAux s seqLen f fuel acc p = .ok ([], p) := by
  cases fuel <;> (rw [seqAux.eq_def]; simp [h])

theorem seqAux_succ {α : Type} (s : Stream) (seqLen : Nat)
    (f : Nat → Int → Except Err (α × Int)) (fuel acc : Nat) (p : Int) :
    seqAux s seqLen f (fuel + 1) acc p =
      if acc < seqLen then
        match readLe 4 s p with
        | .error e => .error e
        | .ok (len, p1) =>
          match f len p1 with
          | .error e => .error e
          | .ok (x, p2) =>
            let acc' := (acc + 4 + len) % 2 ^ 32
            if seqLen < acc' then .error .incompleteSeq
            else
              match seqAux s seqLen f fuel acc' p2 with
              | .error e => .error e
              | .ok (xs, p3) => .ok (x :: xs, p3)
      else .ok ([], p) := rfl

/-- The generic driver, run on the encoding of a record sequence with a
per-record parser that parses each record's own payload, returns exactly
the encoded records and consumes exactly the encoded bytes (assuming the
whole budget fits the 32-bit accumulator). -/
theorem seqAux_encodes {α : Type} {s : Stream} (e : α → List Nat)
    (f : Nat → Int → Except Err (α × Int)) (items : List α) :
    ∀ (fuel acc : Nat) (p : Int) (seqLen : Nat),
      (∀ a ∈ items, ∀ q : Int, hasAt s q (e a) →
        f (e a).length q = .ok (a, q + ((e a).length : Int))) →
      items.length ≤ fuel →
      seqLen = acc + (seqEncode e items).length →
      seqLen < 2 ^ 32 →
      hasAt s p (seqEncode e items) →
      seqAux s seqLen f fuel acc p = .ok (items, p + ((seqEncode e items).length : Int)) := by
  induction items with
  | nil =>
    intro fuel acc p seqLen hf hfuel hlen hbound hat
    rw [seqEncode_nil] at hlen ⊢
    simp only [List.length_nil, Nat.add_zero] at hlen
    rw [seqAux_stop (by omega)]
    simp
  | cons a rest ih =>
    intro fuel acc p seqLen hf hfuel hlen hbound hat
    rw [seqEncode_cons] at hlen hat ⊢
    simp only [List.length_append, encodeU32_length] at hlen ⊢
    have h1 : hasAt s p (encodeU32 (e a).length) := hasAt_append_left hat
    have h2 := hasAt_append_right hat
    rw [encodeU32_length] at h2
    have h2a : hasAt s (p + 4) (e a) := hasAt_append_left h2
    have h2r := hasAt_append_right h2
    push_cast at h2r
    match fuel with
    | 0 => simp at hfuel
    | fuel + 1 =>
      rw [seqAux_succ]
      rw [if_pos (by omega : acc < seqLen)]
      have hacc : (acc + 4 + (e a).length) % 2 ^ 32 = acc + 4 + (e a).length :=
        Nat.mod_eq_of_lt (by omega)
      have hrec := ih fuel (acc + 4 + (e a).length) (p + 4 + ((e a).length : Int)) seqLen
        (fun x hx => hf x (by simp [hx])) (by simp at hfuel; omega) (by omega) hbound h2r
      simp only [readLe_encodeU32 h1 (by omega : (e a).length < 2 ^ 32),
        hf a (by simp) (p + 4) h2a, hacc,
        if_neg (by omega : ¬ seqLen < acc + 4 + (e a).length), hrec]
      simp only [Except.ok.injEq, Prod.mk.injEq, true_and]
      push_cast
      ring

theorem seqEncode_mem_le (e : α → List Nat) {items : List α} {a : α} (h : a ∈ items) :
    (e a).length ≤ (seqEncode e items).length := by
  induction items with
  | nil => simp at h
  | cons b l ih =>
    rw [seqEncode_cons]
    simp only [List.length_append, encodeU32_length]
    rcases List.mem_cons.mp h with rfl | h'
    · omega
    · have := ih h'
      omega

/-! ## Helper lemmas: the v2 entity parsers on encoded entities -/

theorem parseDigest_encodes {s : Stream} {p : Int} {d : Digest} (len : Nat)
    (hwf : WFDigest d) (h : hasAt s p (digestPayload d)) :
    parseDigest s len p = .ok (d, p + ((digestPayload d).length : Int)) := by
  obtain ⟨ha, hl⟩ := hwf
  simp only [digestPayload, List.append_assoc] at h
  have h1 : hasAt s p (encodeU32 d.sigAlgoId) := hasAt_append_left h
  have h2 := hasAt_append_right (b := encodeU32 d.digestData.length ++ d.digestData) h
  rw [encodeU32_length] at h2
  push_cast at h2
  have h2a : hasAt s (p + 4) (encodeU32 d.digestData.length) := hasAt_append_left h2
  have h2b := hasAt_append_right (b := d.digestData) h2
  rw [encodeU32_length] at h2b
  push_cast at h2b
  simp only [parseDigest, bind, Except.bind, readLe_encodeU32 h1 ha,
    readLe_encodeU32 h2a hl, readBytes_hasAt h2b, pure, Except.pure,
    Except.ok.injEq, Prod.mk.injEq]
  constructor
  · trivial
  · simp only [digestPayload, List.length_append, encodeU32_length]
    push_cast
    ring

theorem parseCertificate_encodes {s : Stream} {p : Int} {c : Certificate}
    (h : hasAt s p (certPayload c)) :
    parseCertificate s (certPayload c).length p =
      .ok (c, p + ((certPayload c).length : Int)) := by
  unfold parseCertificate certPayload
  exact readBytes_hasAt h

theorem parseAddAttr_encodes {s : Stream} {p : Int} {a : AddAttr} (len : Nat)
    (hwf : WFAttr a) (h : hasAt s p (attrPayload a)) :
    parseAddAttr s len p = .ok (a, p + ((attrPayload a).length : Int)) := by
  obtain ⟨hi, hl⟩ := hwf
  simp only [attrPayload, List.append_assoc] at h
  have h1 : hasAt s p (encodeU32 a.id) := hasAt_append_left h
  have h2 := hasAt_append_right (b := encodeU32 a.value.length ++ a.value) h
  rw [encodeU32_length] at h2
  push_cast at h2
  have h2a : hasAt s (p + 4) (encodeU32 a.value.length) := hasAt_append_left h2
  have h2b := hasAt_append_right (b := a.value) h2
  rw [encodeU32_length] at h2b
  push_cast at h2b
  simp only [parseAddAttr, bind, Except.bind, readLe_encodeU32 h1 hi,
    readLe_encodeU32 h2a hl, readBytes_hasAt h2b, pure, Except.pure,
    Except.ok.injEq, Prod.mk.injEq]
  constructor
  · trivial
  · simp only [attrPayload, List.length_append, encodeU32_length]
    push_cast
    ring

theorem parseSignature_encodes {s : Stream} {p : Int} {sg : Signature} (len : Nat)
    (hwf : WFSig sg) (h : hasAt s p (sigPayload sg)) :
    parseSignature s len p = .ok (sg, p + ((sigPayload sg).length : Int)) := by
  obtain ⟨ha, hl⟩ := hwf
  simp only [sigPayload, List.append_assoc] at h
  have h1 : hasAt s p (encodeU32 sg.sigAlgoId) := hasAt_append_left h
  have h2 := hasAt_append_right (b := encodeU32 sg.signatureData.length ++ sg.signatureData) h
  rw [encodeU32_length] at h2
  push_cast at h2
  have h2a : hasAt s (p + 4) (encodeU32 sg.signatureData.length) := hasAt_append_left h2
  have h2b := hasAt_append_right (b := sg.signatureData) h2
  rw [encodeU32_length] at h2b
  push_cast at h2b
  simp only [parseSignature, bind, Except.bind, readLe_encodeU32 h1 ha,
    readLe_encodeU32 h2a hl, readBytes_hasAt h2b, pure, Except.pure,
    Except.ok.injEq, Prod.mk.injEq]
  constructor
  · trivial
  · simp only [sigPayload, List.length_append, encodeU32_length]
    push_cast
    ring

theorem encodeSignedData_length (sd : V2SignedData) :
    (encodeSignedData sd).length =
      12 + ((seqEncode digestPayload sd.digests).length +
        (seqEncode certPayload sd.certificates).length +
        (seqEncode attrPayload sd.addAttrs).length) := by
  simp only [encodeSignedData, List.length_append, encodeU32_length]
  omega

/-- Running `parse_v2_signed_data` on an encoding of `sd` (any declared `len`):
it returns `sd` and consumes the encoding plus four further bytes (the
discarded trailing `u32`), which must exist in the stream. -/
theorem parseV2SignedData_encodes {s : Stream} {p : Int} {sd : V2SignedData} (len fuel : Nat)
    (hwf : WFSignedData sd)
    (hfd : sd.digests.length ≤ fuel) (hfc : sd.certificates.length ≤ fuel)
    (hfa : sd.addAttrs.length ≤ fuel)
    (h : hasAt s p (encodeSignedData sd))
    (hx : p + ((encodeSignedData sd).length : Int) + 4 ≤ s.len) :
    parseV2SignedData fuel s len p =
      .ok (sd, p + ((encodeSignedData sd).length : Int) + 4) := by
  obtain ⟨hwd, hwa, hbd, hbc, hba⟩ := hwf
  have hlen := encodeSignedData_length sd
  have hp0 : 0 ≤ p := h.1
  simp only [encodeSignedData, List.append_assoc] at h
  have h1 : hasAt s p (encodeU32 (seqEncode digestPayload sd.digests).length) :=
    hasAt_append_left h
  have h2 := hasAt_append_right
    (a := encodeU32 (seqEncode digestPayload sd.digests).length) h
  rw [encodeU32_length] at h2
  push_cast at h2
  have h2a : hasAt s (p + 4) (seqEncode digestPayload sd.digests) := hasAt_append_left h2
  have h3 := hasAt_append_right (a := seqEncode digestPayload sd.digests) h2
  have h3a : hasAt s (p + 4 + ((seqEncode digestPayload sd.digests).length : Int))
      (encodeU32 (seqEncode certPayload sd.certificates).length) := hasAt_append_left h3
  have h4 := hasAt_append_right
    (a := encodeU32 (seqEncode certPayload sd.certificates).length) h3
  rw [encodeU32_length] at h4
  push_cast at h4
  have h4a : hasAt s (p + 4 + ((seqEncode digestPayload sd.digests).length : Int) + 4)
      (seqEncode certPayload sd.certificates) := hasAt_append_left h4
  have h5 := hasAt_append_right (a := seqEncode certPayload sd.certificates) h4
  have h5a : hasAt s (p + 4 + ((seqEncode digestPayload sd.digests).length : Int) + 4 +
      ((seqEncode certPayload sd.certificates).length : Int))
      (encodeU32 (seqEncode attrPayload sd.addAttrs).length) := hasAt_append_left h5
  have h6 := hasAt_append_right
    (a := encodeU32 (seqEncode attrPayload sd.addAttrs).length) h5
  rw [encodeU32_length] at h6
  push_cast at h6
  have hseqd := seqAux_encodes digestPayload (parseDigest s) sd.digests fuel 0 (p + 4)
    (seqEncode digestPayload sd.digests).length
    (fun d hd q hq => parseDigest_encodes (digestPayload d).length (hwd d hd) hq)
    hfd (by omega) hbd h2a
  have hseqc := seqAux_encodes certPayload (parseCertificate s) sd.certificates fuel 0
    (p + 4 + ((seqEncode digestPayload sd.digests).length : Int) + 4)
    (seqEncode certPayload sd.certificates).length
    (fun c _ q hq => parseCertificate_encodes hq)
    hfc (by omega) hbc h4a
  have hseqa := seqAux_encodes attrPayload (parseAddAttr s) sd.addAttrs fuel 0
    (p + 4 + ((seqEncode digestPayload sd.digests).length : Int) + 4 +
      ((seqEncode certPayload sd.certificates).length : Int) + 4)
    (seqEncode attrPayload sd.addAttrs).length
    (fun a ha q hq => parseAddAttr_encodes (attrPayload a).length (hwa a ha) hq)
    hfa (by omega) hba h6
  have hfinal : readLe 4 s (p + 4 + ((seqEncode digestPayload sd.digests).length : Int) + 4 +
      ((seqEncode certPayload sd.certificates).length : Int) + 4 +
      ((seqEncode attrPayload sd.addAttrs).length : Int)) =
      .ok (leVal s 4 (p + 4 + ((seqEncode digestPayload sd.digests).length : Int) + 4 +
        ((seqEncode certPayload sd.certificates).length : Int) + 4 +
        ((seqEncode attrPayload sd.addAttrs).length : Int)).toNat,
        p + 4 + ((seqEncode digestPayload sd.digests).length : Int) + 4 +
        ((seqEncode certPayload sd.certificates).length : Int) + 4 +
        ((seqEncode attrPayload sd.addAttrs).length : Int) + 4) := by
    rw [readLe_of_bounds (by omega) (by push_cast at hx ⊢; omega)]
    norm_num
  simp only [parseV2SignedData, parseLenPrefixedSeq, bind, Except.bind,
    readLe_encodeU32 h1 hbd, hseqd, readLe_encodeU32 h3a hbc, hseqc,
    readLe_encodeU32 h5a hba, hseqa, hfinal, pure, Except.pure,
    Except.ok.injEq, Prod.mk.injEq]
  constructor
  · trivial
  · push_cast at hlen ⊢
    omega

theorem signerPayloadPadded_length (sg : V2Signer) :
    (signerPayloadPadded sg).length =
      16 + ((encodeSignedData sg.signedData).length +
        (seqEncode sigPayload sg.signatures).length + sg.publicKey.length) := by
  simp only [signerPayloadPadded, List.length_append, encodeU32_length, List.length_cons,
    List.length_nil]
  omega

/-- Running `parse_v2_signer` on a padded encoding of `sg` (any declared `len`):
it returns `sg` and consumes exactly the padded payload. -/
theorem parseV2Signer_encodes {s : Stream} {p : Int} {sg : V2Signer} (len fuel : Nat)
    (hwf : WFSigner sg)
    (hfd : sg.signedData.digests.length ≤ fuel)
    (hfc : sg.signedData.certificates.length ≤ fuel)
    (hfa : sg.signedData.addAttrs.length ≤ fuel)
    (hfs : sg.signatures.length ≤ fuel)
    (h : hasAt s p (signerPayloadPadded sg)) :
    parseV2Signer fuel s len p = .ok (sg, p + ((signerPayloadPadded sg).length : Int)) := by
  obtain ⟨hwsd, hws, hbsd, hbss, hbpk⟩ := hwf
  have hlen := signerPayloadPadded_length sg
  have hp0 : 0 ≤ p := h.1
  simp only [signerPayloadPadded, List.append_assoc] at h
  have h1 : hasAt s p (encodeU32 (encodeSignedData sg.signedData).length) :=
    hasAt_append_left h
  have h2 := hasAt_append_right (a := encodeU32 (encodeSignedData sg.signedData).length) h
  rw [encodeU32_length] at h2
  push_cast at h2
  have h2a : hasAt s (p + 4) (encodeSignedData sg.signedData) := hasAt_append_left h2
  have h3 := hasAt_append_right (a := encodeSignedData sg.signedData) h2
  have h3a : hasAt s (p + 4 + ((encodeSignedData sg.signedData).length : Int))
      ([0, 0, 0, 0] : List Nat) := hasAt_append_left h3
  have h4 := hasAt_append_right (a := ([0, 0, 0, 0] : List Nat)) h3
  simp only [List.length_cons, List.length_nil] at h4
  push_cast at h4
  have h4a : hasAt s (p + 4 + ((encodeSignedData sg.signedData).length : Int) + 4)
      (encodeU32 (seqEncode sigPayload sg.signatures).length) := hasAt_append_left h4
  have h5 := hasAt_append_right
    (a := encodeU32 (seqEncode sigPayload sg.signatures).length) h4
  rw [encodeU32_length] at h5
  push_cast at h5
  have h5a : hasAt s (p + 4 + ((encodeSignedData sg.signedData).length : Int) + 4 + 4)
      (seqEncode sigPayload sg.signatures) := hasAt_append_left h5
  have h6 := hasAt_append_right (a := seqEncode sigPayload sg.signatures) h5
  have h6a : hasAt s (p + 4 + ((encodeSignedData sg.signedData).length : Int) + 4 + 4 +
      ((seqEncode sigPayload sg.signatures).length : Int))
      (encodeU32 sg.publicKey.length) := hasAt_append_left h6
  have h7 := hasAt_append_right (a := encodeU32 sg.publicKey.length) h6
  rw [encodeU32_length] at h7
  push_cast at h7
  have hx : p + 4 + ((encodeSignedData sg.signedData).length : Int) + 4 ≤ s.len := by
    have := hasAt_len_le h3a
    simp only [List.length_cons, List.length_nil] at this
    push_cast at this
    omega
  have hsd := parseV2SignedData_encodes
    (encodeSignedData sg.signedData).length fuel hwsd hfd hfc hfa h2a hx
  have hseqs := seqAux_encodes sigPayload (parseSignature s) sg.signatures fuel 0
    (p + 4 + ((encodeSignedData sg.signedData).length : Int) + 4 + 4)
    (seqEncode sigPayload sg.signatures).length
    (fun x hx' q hq => parseSignature_encodes (sigPayload x).length (hws x hx') hq)
    hfs (by omega) hbss h5a
  simp only [parseV2Signer, parseLenPrefixedSeq, parsePublicKey, bind, Except.bind,
    readLe_encodeU32 h1 hbsd, hsd, readLe_encodeU32 h4a hbss, hseqs,
    readLe_encodeU32 h6a hbpk, readBytes_hasAt h7, pure, Except.pure,
    Except.ok.injEq, Prod.mk.injEq]
  constructor
  · trivial
  · push_cast at hlen ⊢
    omega

/-- Decoding (as `siginfo::parse` does) the padded encoding of any
well-formed synthetic block reproduces the block exactly and consumes the
whole value. -/
theorem decodeV2_encodes (b : V2Block) (hwf : WFBlock b) :
    decodeV2 (Stream.ofList (encodeV2Padded b)) =
      .ok (b, ((encodeV2Padded b).length : Int)) := by
  obtain ⟨hws, hbb⟩ := hwf
  have h := hasAt_ofList (encodeV2Padded b)
  have hunf : encodeV2Padded b =
      encodeU32 (seqEncode signerPayloadPadded b.signers).length ++
        seqEncode signerPayloadPadded b.signers := rfl
  have h1 : hasAt (Stream.ofList (encodeV2Padded b)) 0
      (encodeU32 (seqEncode signerPayloadPadded b.signers).length) :=
    hasAt_append_left (b := seqEncode signerPayloadPadded b.signers) h
  have h2 : hasAt (Stream.ofList (encodeV2Padded b))
      (0 + ((encodeU32 (seqEncode signerPayloadPadded b.signers).length).length : Int))
      (seqEncode signerPayloadPadded b.signers) :=
    hasAt_append_right (a := encodeU32 (seqEncode signerPayloadPadded b.signers).length) h
  rw [encodeU32_length] at h2
  push_cast at h2
  have hslen : (Stream.ofList (encodeV2Padded b)).len = (encodeV2Padded b).length := rfl
  have hENC : (encodeV2Padded b).length =
      4 + (seqEncode signerPayloadPadded b.signers).length := by
    rw [hunf]
    simp [List.length_append, encodeU32_length]
  have hf : ∀ sg ∈ b.signers, ∀ q : Int,
      hasAt (Stream.ofList (encodeV2Padded b)) q (signerPayloadPadded sg) →
      parseV2Signer ((Stream.ofList (encodeV2Padded b)).len + 1)
          (Stream.ofList (encodeV2Padded b)) (signerPayloadPadded sg).length q =
        .ok (sg, q + ((signerPayloadPadded sg).length : Int)) := by
    intro sg hsg q hq
    have hle := seqEncode_mem_le signerPayloadPadded hsg
    have hsp := signerPayloadPadded_length sg
    have hd4 := seqEncode_length_ge digestPayload sg.signedData.digests
    have hc4 := seqEncode_length_ge certPayload sg.signedData.certificates
    have ha4 := seqEncode_length_ge attrPayload sg.signedData.addAttrs
    have hs4 := seqEncode_length_ge sigPayload sg.signatures
    have hsdl := encodeSignedData_length sg.signedData
    exact parseV2Signer_encodes (signerPayloadPadded sg).length _ (hws sg hsg)
      (by rw [hslen, hENC]; omega) (by rw [hslen, hENC]; omega)
      (by rw [hslen, hENC]; omega) (by rw [hslen, hENC]; omega) hq
  have hseq := seqAux_encodes signerPayloadPadded
    (parseV2Signer ((Stream.ofList (encodeV2Padded b)).len + 1)
      (Stream.ofList (encodeV2Padded b)))
    b.signers ((Stream.ofList (encodeV2Padded b)).len + 1) 0 (4 : Int)
    (seqEncode signerPayloadPadded b.signers).length hf
    (by
      have := seqEncode_length_ge signerPayloadPadded b.signers
      rw [hslen, hENC]
      omega)
    (by omega) hbb h2
  simp only [decodeV2, parseV2Block, parseLenPrefixedSeq, bind, Except.bind,
    readLe_encodeU32 h1 hbb, zero_add, hseq, pure, Except.pure,
    Except.ok.injEq, Prod.mk.injEq]
  constructor
  · trivial
  · rw [hENC]
    push_cast
    ring

/-! ## Helper lemmas: the accumulator discipline of the sequence decoder -/

theorem readLe_ok_shape {w : Nat} {s : Stream} {p : Int} {v : Nat} {r : Int}
    (h : readLe w s p = .ok (v, r)) : r = p + w := by
  unfold readLe at h
  split at h
  · cases h
    rfl
  · cases h

theorem readBytes_ok_shape {n : Nat} {s : Stream} {p : Int} {l : List Nat} {r : Int}
    (h : readBytes n s p = .ok (l, r)) : r = p + n := by
  unfold readBytes at h
  split at h
  · cases h
    rfl
  · cases h

/-- The parser `parse_certificate` consumes exactly its declared length. -/
theorem parseCertificate_exact (s : Stream) (L : Nat) (q : Int) (x : Certificate) (r : Int)
    (h : parseCertificate s L q = .ok (x, r)) : r = q + L :=
  readBytes_ok_shape h

theorem seqAux_zero {α : Type} (s : Stream) (seqLen : Nat)
    (f : Nat → Int → Except Err (α × Int)) (acc : Nat) (p : Int) :
    seqAux s seqLen f 0 acc p =
      if acc < seqLen then .error .fuel else .ok ([], p) := rfl

theorem wrapTotals_nil (acc : Nat) : wrapTotals [] acc = acc := rfl

theorem wrapTotals_cons (l : Nat) (Ls : List Nat) (acc : Nat) :
    wrapTotals (l :: Ls) acc = wrapTotals Ls ((acc + 4 + l) % 2 ^ 32) := rfl

/-- Whenever the sequence decoder succeeds, there is a list of record
lengths whose wrapped running total starts from the entry accumulator,
never exceeds the budget, ends exactly at the budget, and whose true
byte count is the cursor displacement. -/
theorem seqAux_ok_totals {α : Type} {s : Stream} {seqLen : Nat}
    {f : Nat → Int → Except Err (α × Int)}
    (hf : ∀ (L : Nat) (q : Int) (x : α) (r : Int), f L q = .ok (x, r) → r = q + L) :
    ∀ (fuel acc : Nat) (p : Int) (out : List α) (q : Int),
      acc ≤ seqLen →
      seqAux s seqLen f fuel acc p = .ok (out, q) →
      ∃ Ls : List Nat, Ls.length = out.length ∧ wrapTotals Ls acc = seqLen ∧
        (∀ n, wrapTotals (Ls.take n) acc ≤ seqLen) ∧
        q = p + ((Ls.foldr (fun l t => 4 + l + t) 0 : Nat) : Int) := by
  intro fuel
  induction fuel with
  | zero =>
    intro acc p out q hacc hrun
    rw [seqAux_zero] at hrun
    rcases Nat.lt_or_ge acc seqLen with hlt | hge
    · rw [if_pos hlt] at hrun
      cases hrun
    · rw [if_neg (by omega)] at hrun
      cases hrun
      exact ⟨[], rfl, by rw [wrapTotals_nil]; omega,
        fun n => by simpa [wrapTotals_nil] using hacc, by simp⟩
  | succ fuel ih =>
    intro acc p out q hacc hrun
    rw [seqAux_succ] at hrun
    rcases Nat.lt_or_ge acc seqLen with hlt | hge
    case inr =>
      rw [if_neg (by omega)] at hrun
      cases hrun
      exact ⟨[], rfl, by rw [wrapTotals_nil]; omega,
        fun n => by simpa [wrapTotals_nil] using hacc, by simp⟩
    case inl =>
      rw [if_pos hlt] at hrun
      cases hread : readLe 4 s p with
      | error e =>
        rw [hread] at hrun
        cases hrun
      | ok v =>
        obtain ⟨len, p1⟩ := v
        rw [hread] at hrun
        simp only [] at hrun
        cases hfx : f len p1 with
        | error e =>
          rw [hfx] at hrun
          cases hrun
        | ok w =>
          obtain ⟨x, p2⟩ := w
          rw [hfx] at hrun
          simp only [] at hrun
          by_cases hex : seqLen < (acc + 4 + len) % 2 ^ 32
          · rw [if_pos hex] at hrun
            cases hrun
          · rw [if_neg hex] at hrun
            cases hrec : seqAux s seqLen f fuel ((acc + 4 + len) % 2 ^ 32) p2 with
            | error e =>
              rw [hrec] at hrun
              cases hrun
            | ok v3 =>
              obtain ⟨xs, p3⟩ := v3
              rw [hrec] at hrun
              simp only [] at hrun
              injection hrun with hpair
              injection hpair with hout hq
              subst hout
              subst hq
              have hp1 := readLe_ok_shape hread
              have hp2 := hf len p1 x p2 hfx
              obtain ⟨Ls, hL1, hL2, hL3, hL4⟩ :=
                ih ((acc + 4 + len) % 2 ^ 32) p2 xs p3 (by omega) hrec
              refine ⟨len :: Ls, by simp [hL1], by rw [wrapTotals_cons]; exact hL2, ?_, ?_⟩
              · intro n
                match n with
                | 0 => simpa [wrapTotals_nil] using hacc
                | n + 1 =>
                  rw [List.take_succ_cons, wrapTotals_cons]
                  exact hL3 n
              · rw [hL4, hp2, hp1, List.foldr_cons]
                push_cast
                ring

/-! ## Helper lemmas: unfolding the pair walk -/

theorem walkLoop_stop {s : Stream} {endPos : Int} {fuel : Nat} {i : Int} {si : SigInfo}
    (h : ¬ i < endPos) : walkLoop s endPos fuel i si = (si, none) := by
  cases fuel <;> (rw [walkLoop.eq_def]; simp [h])

theorem walkLoop_succ (s : Stream) (endPos : Int) (fuel : Nat) (i : Int) (si : SigInfo) :
    walkLoop s endPos (fuel + 1) i si =
      if i < endPos then
        match readLe 8 s i with
        | .error e => (si, some e)
        | .ok (pairLen, p1) =>
          match readLe 4 s p1 with
          | .error e => (si, some e)
          | .ok (id, p2) =>
            if id = v2Id then
              let si := { si with v2BlockPos := p2 }
              match readLe 4 s p2 with
              | .error e => (si, some e)
              | .ok (v2BlockLen, p3) =>
                match parseV2Block (s.len + 1) s v2BlockLen p3 with
                | .error e => (si, some e)
                | .ok (blk, _) =>
                  walkLoop s endPos fuel (i + pairAdvance pairLen) { si with v2Block := blk }
            else if id = v3Id then
              walkLoop s endPos fuel (i + pairAdvance pairLen) { si with v3BlockPos := p2 }
            else if id = v31Id then
              walkLoop s endPos fuel (i + pairAdvance pairLen) { si with v31BlockPos := p2 }
            else
              walkLoop s endPos fuel (i + pairAdvance pairLen) si
      else (si, none) := rfl

theorem pairAdvance_small {pairLen : Nat} (h : pairLen + 8 < 2 ^ 63) :
    pairAdvance pairLen = ((pairLen + 8 : Nat) : Int) := by
  unfold pairAdvance
  rw [Nat.mod_eq_of_lt (by omega)]
  rw [if_pos h]

theorem walkLoop_zero (s : Stream) (endPos : Int) (i : Int) (si : SigInfo) :
    walkLoop s endPos 0 i si =
      if i < endPos then (si, some .fuel) else (si, none) := rfl

/-- Through any run of the pair walk, the v2 block field of the state is
either untouched or the first component of some successful
`parse_v2_block` run on the stream. -/
theorem walkLoop_v2Block_provenance {s : Stream} {endPos : Int} :
    ∀ (fuel : Nat) (i : Int) (si si' : SigInfo) (res : Option Err),
      walkLoop s endPos fuel i si = (si', res) →
      si'.v2Block = si.v2Block ∨
        ∃ (len : Nat) (p q : Int),
          parseV2Block (s.len + 1) s len p = .ok (si'.v2Block, q) := by
  intro fuel
  induction fuel with
  | zero =>
    intro i si si' res h
    rw [walkLoop_zero] at h
    by_cases hi : i < endPos
    · rw [if_pos hi] at h
      cases h
      exact Or.inl rfl
    · rw [if_neg hi] at h
      cases h
      exact Or.inl rfl
  | succ fuel ih =>
    intro i si si' res h
    by_cases hi : i < endPos
    case neg =>
      rw [walkLoop_stop hi] at h
      cases h
      exact Or.inl rfl
    case pos =>
      rw [walkLoop_succ, if_pos hi] at h
      cases h8 : readLe 8 s i with
      | error e =>
        rw [h8] at h
        simp only [] at h
        cases h
        exact Or.inl rfl
      | ok v8 =>
        obtain ⟨pairLen, p1⟩ := v8
        rw [h8] at h
        simp only [] at h
        cases h4 : readLe 4 s p1 with
        | error e =>
          rw [h4] at h
          simp only [] at h
          cases h
          exact Or.inl rfl
        | ok v4 =>
          obtain ⟨id, p2⟩ := v4
          rw [h4] at h
          simp only [] at h
          by_cases hv2 : id = v2Id
          · rw [if_pos hv2] at h
            cases hbl : readLe 4 s p2 with
            | error e =>
              rw [hbl] at h
              simp only [] at h
              cases h
              exact Or.inl rfl
            | ok vb =>
              obtain ⟨blkLen, p3⟩ := vb
              rw [hbl] at h
              simp only [] at h
              cases hpb : parseV2Block (s.len + 1) s blkLen p3 with
              | error e =>
                rw [hpb] at h
                simp only [] at h
                cases h
                exact Or.inl rfl
              | ok vblk =>
                obtain ⟨blk, q'⟩ := vblk
                rw [hpb] at h
                simp only [] at h
                rcases ih _ _ _ _ h with heq | hex
                · right
                  refine ⟨blkLen, p3, q', ?_⟩
                  rw [heq]
                  exact hpb
                · exact Or.inr hex
          · rw [if_neg hv2] at h
            by_cases hv3 : id = v3Id
            · rw [if_pos hv3] at h
              rcases ih _ _ _ _ h with heq | hex
              · exact Or.inl (by rw [heq])
              · exact Or.inr hex
            · rw [if_neg hv3] at h
              by_cases hv31 : id = v31Id
              · rw [if_pos hv31] at h
                rcases ih _ _ _ _ h with heq | hex
                · exact Or.inl (by rw [heq])
                · exact Or.inr hex
              · rw [if_neg hv31] at h
                rcases ih _ _ _ _ h with heq | hex
                · exact Or.inl heq
                · exact Or.inr hex

/-! ## Claim theorems: concrete runs -/

/-- C2: the Reverse Byte Scanner does **not** always return the highest
position at which the pattern occurs: on the one-byte stream `[0x41]`
the pattern `[0x41]` occurs at position 0, yet `reverse_find_bytes`
returns the not-found sentinel `-1` (its backward scan starts one byte
too early, at `crbegin() + pat_size`, so a match beginning at the last
byte below the scan start is never examined). -/
theorem c2_scanner_misses_last_byte :
    OccursAt (Stream.ofList [0x41]) [0x41] 0 ∧
      reverseFindBytes (Stream.ofList [0x41]) [0x41] = .ok (-1) := by
  decide

/-- C8: on a file whose signing block holds exactly one v2 id/value pair
encoding zero signers, `parse` succeeds, `has_v2_block()` is true, and
the decoded block's signer list is empty. -/
theorem c8_zero_signers :
    (parse (Stream.ofList fileC8) SigInfo.init).2 = none ∧
      (parse (Stream.ofList fileC8) SigInfo.init).1.hasV2Block = true ∧
      (parse (Stream.ofList fileC8) SigInfo.init).1.v2Block.signers = [] := by
  decide

/-- C9, counterexample: a zero-length pattern is not reported as an
error — `reverse_find_bytes` returns the not-found value `-1`. -/
theorem c9_counterexample :
    reverseFindBytes (Stream.ofList [1, 2, 3, 4]) [] = .ok (-1) := by
  decide

/-- C1, counterexample: decoding a SignedData record whose three
sequences are empty (twelve zero bytes) consumes sixteen bytes, not
twelve — an extra trailing 4-byte field is read after the attribute
sequence. -/
theorem c1_counterexample :
    parseV2SignedData 100 (Stream.ofList (List.replicate 16 0)) 12 0 =
      .ok (⟨[], [], []⟩, 16) ∧ (16 : Int) ≠ 12 := by
  decide

/-- C5, counterexample: for the one-signer block `blockC5` encoded per
the spec's binary layout contract, decoding does not reproduce the
block — the decoder's extra 4-byte read inside SignedData desynchronises
it and the decode fails with a short read. -/
theorem c5_counterexample :
    decodeV2 (Stream.ofList (encodeV2 blockC5)) = .error .shortRead := by
  decide

/-- C6, counterexample: on `fileC6`, `parse` fails, yet the V2Block
reachable from the object is populated (it holds the signer decoded from
the first, well-formed v2 pair), not the empty signer list of a freshly
constructed object. -/
theorem c6_counterexample :
    (parse (Stream.ofList fileC6) SigInfo.init).2 = some .shortRead ∧
      (parse (Stream.ofList fileC6) SigInfo.init).1.v2Block.signers ≠ [] := by
  decide

/-- C7, counterexample: on `fileC7` every `parse` call fails (with a
short read inside the v2 value), yet `has_v2_block()` returns true
afterwards, because `v2_block_pos_` is assigned before the value is
decoded. -/
theorem c7_counterexample :
    (parse (Stream.ofList fileC7) SigInfo.init).2 = some .shortRead ∧
      (parse (Stream.ofList fileC7) SigInfo.init).1.hasV2Block = true := by
  decide

/-- C4, counterexample: the walk does not invoke the V2 Block Decoder
with budget `pair_length − 4`: on `fileC8` the source locator succeeds
(budget is the `u32` read from the value's first four bytes, here 0),
while the claim's reading of the walk (`parseSpecC4`) fails with a short
read. -/
theorem c4_counterexample :
    (parse (Stream.ofList fileC8) SigInfo.init).2 = none ∧
      (parseSpecC4 (Stream.ofList fileC8) SigInfo.init).2 = some .shortRead := by
  decide

/-- C3, counterexample: with budget 4, a first record declaring
`2^32 − 4` bytes makes the running total `4 + L = 2^32` exceed the
budget, yet the decoder does not fail: its 32-bit accumulator wraps to
0 and, after a second (empty) record, the run returns a result. -/
theorem c3_counterexample :
    readLe 4 streamC3 0 = .ok (4294967292, 4) ∧ 4 < 4 + 4294967292 ∧
      (parseLenPrefixedSeq 5 streamC3 4 (parseCertificate streamC3) 0).isOk = true := by
  refine ⟨by decide, by norm_num, by decide⟩

/-! ## Claim theorems: amended general statements -/

/-- C5 (amended): for every well-formed synthetic signing block encoded
per the binary layout contract *with four extra bytes appended after each
signed data's attribute sequence* (counted in the signer's record length
but not in the signed-data length field), decoding the encoding
reproduces the block exactly — signer count, digest, certificate,
attribute and signature lists, and public-key bytes — and consumes the
whole value. -/
theorem c5_roundtrip_padded (b : V2Block) (hwf : WFBlock b) :
    decodeV2 (Stream.ofList (encodeV2Padded b)) =
      .ok (b, ((encodeV2Padded b).length : Int)) :=
  decodeV2_encodes b hwf

/-- Witness for the amended C5 at a block with one signer holding two
digests, one certificate, one attribute, one signature and a four-byte
public key. -/
theorem c5_roundtrip_padded_witness :
    WFBlock blockC5w ∧
      decodeV2 (Stream.ofList (encodeV2Padded blockC5w)) =
        .ok (blockC5w, ((encodeV2Padded blockC5w).length : Int)) :=
  ⟨by decide, c5_roundtrip_padded blockC5w (by decide)⟩

/-- C1 (amended): decoding a SignedData record consumes a `u32` digests
sequence length and that many bytes of Digest records, a `u32`
certificates sequence length and that many bytes, a `u32` attributes
sequence length and that many bytes, **and then one further 4-byte field
whose value is discarded** — `12 + digests + certificates + attributes + 4`
bytes in total. -/
theorem c1_amended {s : Stream} {p : Int} {sd : V2SignedData} (len fuel : Nat)
    (hwf : WFSignedData sd)
    (hfd : sd.digests.length ≤ fuel) (hfc : sd.certificates.length ≤ fuel)
    (hfa : sd.addAttrs.length ≤ fuel)
    (h : hasAt s p (encodeSignedData sd))
    (hx : p + ((encodeSignedData sd).length : Int) + 4 ≤ s.len) :
    parseV2SignedData fuel s len p =
      .ok (sd, p + ((encodeSignedData sd).length : Int) + 4) :=
  parseV2SignedData_encodes len fuel hwf hfd hfc hfa h hx

/-- C3 (amended): the running total of the Length-Prefixed Sequence
Decoder is a 32-bit accumulator, updated per record to
`(total + 4 + L) % 2^32`.  First conjunct: whenever the decoder succeeds
(for any per-record function that consumes exactly its declared length),
the record lengths give wrapped totals that never exceed the budget N and
end exactly at N, and the cursor advances by the true byte count.
Second conjunct: a first record that pushes the wrapped accumulator above
N makes the decoder fail with `Incomplete sequence` and no result.
Totals of `2^32` or more wrap and can mask an overrun (see the
counterexample). -/
theorem c3_amended :
    (∀ {α : Type} (s : Stream) (seqLen : Nat) (f : Nat → Int → Except Err (α × Int)),
      (∀ (L : Nat) (q : Int) (x : α) (r : Int), f L q = .ok (x, r) → r = q + L) →
      ∀ (fuel : Nat) (p : Int) (out : List α) (q : Int),
        parseLenPrefixedSeq fuel s seqLen f p = .ok (out, q) →
        ∃ Ls : List Nat, Ls.length = out.length ∧ wrapTotals Ls 0 = seqLen ∧
          (∀ n, wrapTotals (Ls.take n) 0 ≤ seqLen) ∧
          q = p + ((Ls.foldr (fun l t => 4 + l + t) 0 : Nat) : Int)) ∧
    (∀ {α : Type} (s : Stream) (seqLen : Nat) (f : Nat → Int → Except Err (α × Int))
        (fuel : Nat) (p p1 p2 : Int) (len : Nat) (x : α),
      0 < seqLen → readLe 4 s p = .ok (len, p1) → f len p1 = .ok (x, p2) →
      seqLen < (4 + len) % 2 ^ 32 →
      parseLenPrefixedSeq (fuel + 1) s seqLen f p = .error .incompleteSeq) := by
  constructor
  · intro α s seqLen f hf fuel p out q h
    exact seqAux_ok_totals hf fuel 0 p out q (Nat.zero_le _) h
  · intro α s seqLen f fuel p p1 p2 len x h0 hread hfx hex
    unfold parseLenPrefixedSeq
    rw [seqAux_succ, if_pos h0, hread]
    simp only []
    rw [hfx]
    simp only []
    rw [if_pos (by omega : seqLen < (0 + 4 + len) % 2 ^ 32)]

/-- Witness for the amended C3: a budget-4 sequence holding one empty
record decodes with totals ending at 4, and a first record of declared
length 100 overruns the budget and raises the error. -/
theorem c3_amended_witness :
    (∃ Ls : List Nat, Ls.length = ([([] : Certificate)]).length ∧ wrapTotals Ls 0 = 4 ∧
      (∀ n, wrapTotals (Ls.take n) 0 ≤ 4) ∧
      (4 : Int) = 0 + ((Ls.foldr (fun l t => 4 + l + t) 0 : Nat) : Int)) ∧
    parseLenPrefixedSeq 1 (Stream.ofList (encodeU32 100 ++ List.replicate 100 0)) 4
      (parseCertificate (Stream.ofList (encodeU32 100 ++ List.replicate 100 0))) 0 =
      .error .incompleteSeq := by
  constructor
  · exact c3_amended.1 (Stream.ofList [0, 0, 0, 0]) 4
      (parseCertificate (Stream.ofList [0, 0, 0, 0]))
      (parseCertificate_exact (Stream.ofList [0, 0, 0, 0])) 2 0 [([] : Certificate)] 4
      (by decide)
  · exact c3_amended.2 (Stream.ofList (encodeU32 100 ++ List.replicate 100 0)) 4
      (parseCertificate (Stream.ofList (encodeU32 100 ++ List.replicate 100 0))) 0 0 4 104 100
      (List.replicate 100 0) (by norm_num) (by decide) (by decide) (by norm_num)

/-- C10: a pair whose id is none of the three recognized identifiers is
silently skipped: the walk step leaves the object state unchanged (its
value is not decoded and no position is recorded), raises no error, and
continues at `i + pair_length + 8` (stated for pair lengths whose
advance does not wrap the 64-bit offset). -/
theorem c10_skip_step (s : Stream) (endPos : Int) (fuel : Nat) (i : Int) (si : SigInfo)
    (pairLen id : Nat)
    (hi : i < endPos)
    (h8 : readLe 8 s i = .ok (pairLen, i + 8))
    (h4 : readLe 4 s (i + 8) = .ok (id, i + 12))
    (hv2 : id ≠ v2Id) (hv3 : id ≠ v3Id) (hv31 : id ≠ v31Id)
    (hpl : pairLen + 8 < 2 ^ 63) :
    walkLoop s endPos (fuel + 1) i si =
      walkLoop s endPos fuel (i + ((pairLen + 8 : Nat) : Int)) si := by
  rw [walkLoop_succ, if_pos hi, h8]
  simp only []
  rw [h4]
  simp only []
  rw [if_neg hv2, if_neg hv3, if_neg hv31, pairAdvance_small hpl]

/-- Witness for C10 at a concrete pair with unrecognized id `0x12345678`. -/
theorem c10_skip_step_witness :
    walkLoop (Stream.ofList ([2, 0, 0, 0, 0, 0, 0, 0] ++ [0x78, 0x56, 0x34, 0x12] ++ [0, 0]))
        14 4 0 SigInfo.init =
      walkLoop (Stream.ofList ([2, 0, 0, 0, 0, 0, 0, 0] ++ [0x78, 0x56, 0x34, 0x12] ++ [0, 0]))
        14 3 ((0 : Int) + ((2 + 8 : Nat) : Int)) SigInfo.init :=
  c10_skip_step _ 14 3 0 SigInfo.init 2 0x12345678 (by norm_num) (by decide) (by decide)
    (by decide) (by decide) (by decide) (by norm_num)

/-- C4 (amended): in the locator's walk, each pair is read as a `u64`
pair length and a `u32` id, advancing by `pair_length + 8` per iteration
(stated for advances that do not wrap the 64-bit offset); when the id is
the v2 id, the value's start position is recorded and the V2 Block
Decoder is invoked **with budget equal to the `u32` read from the first
four bytes of the pair's value** (the signer-sequence length prefix), on
the bytes following that prefix — not with budget `pair_length − 4`. -/
theorem c4_amended (s : Stream) (endPos : Int) (fuel : Nat) (i : Int) (si : SigInfo)
    (pairLen prefixLen : Nat) (blk : V2Block) (q : Int)
    (hi : i < endPos)
    (h8 : readLe 8 s i = .ok (pairLen, i + 8))
    (h4 : readLe 4 s (i + 8) = .ok (v2Id, i + 12))
    (hpre : readLe 4 s (i + 12) = .ok (prefixLen, i + 16))
    (hblk : parseV2Block (s.len + 1) s prefixLen (i + 16) = .ok (blk, q))
    (hpl : pairLen + 8 < 2 ^ 63) :
    walkLoop s endPos (fuel + 1) i si =
      walkLoop s endPos fuel (i + ((pairLen + 8 : Nat) : Int))
        { si with v2BlockPos := i + 12, v2Block := blk } := by
  rw [walkLoop_succ, if_pos hi, h8]
  simp only []
  rw [h4]
  simp only []
  rw [if_pos trivial]
  rw [hpre]
  simp only []
  rw [hblk]
  simp only []
  rw [pairAdvance_small hpl]

/-- Witness for the amended C4 at the v2 pair of `fileC8`: the decoder is
invoked with the prefix budget 0 read at offset 12 and decodes zero
signers. -/
theorem c4_amended_witness :
    walkLoop (Stream.ofList fileC8) 16 6 0 SigInfo.init =
      walkLoop (Stream.ofList fileC8) 16 5 ((0 : Int) + ((8 + 8 : Nat) : Int))
        { SigInfo.init with v2BlockPos := (0 : Int) + 12, v2Block := ⟨[]⟩ } :=
  c4_amended (Stream.ofList fileC8) 16 5 0 SigInfo.init 8 0 ⟨[]⟩ 16 (by norm_num)
    (by decide) (by decide) (by decide) (by decide) (by norm_num)

/-- C6 (amended): if `parse` fails with any error, the caller never sees
a *partially* populated tree: the V2Block reachable from the object is
either exactly what it was before the call (the empty block for a fresh
object) or the complete result of a `parse_v2_block` run that succeeded
on some pair before the failure. -/
theorem c6_amended (s : Stream) (si si' : SigInfo) (e : Err)
    (h : parse s si = (si', some e)) :
    si'.v2Block = si.v2Block ∨
      ∃ (len : Nat) (p q : Int),
        parseV2Block (s.len + 1) s len p = .ok (si'.v2Block, q) := by
  unfold parse at h
  cases h1 : reverseFindBytes s eocdMagic with
  | error e1 =>
    rw [h1] at h
    simp only [] at h
    cases h
    exact Or.inl rfl
  | ok m =>
    rw [h1] at h
    simp only [] at h
    by_cases hm : m = -1
    · rw [if_pos hm] at h
      cases h
      exact Or.inl rfl
    · rw [if_neg hm] at h
      cases h2 : readLe 4 s (m + 16) with
      | error e2 =>
        rw [h2] at h
        simp only [] at h
        cases h
        exact Or.inl rfl
      | ok v2 =>
        obtain ⟨cd, r⟩ := v2
        rw [h2] at h
        simp only [] at h
        cases h3 : readBytes 16 s ((cd : Int) - 16) with
        | error e3 =>
          rw [h3] at h
          simp only [] at h
          cases h
          exact Or.inl rfl
        | ok v3 =>
          obtain ⟨magic, r'⟩ := v3
          rw [h3] at h
          simp only [] at h
          by_cases hmg : magic ≠ apkMagic
          · rw [if_pos hmg] at h
            cases h
            exact Or.inl rfl
          · rw [if_neg hmg] at h
            cases h4 : readLe 8 s ((cd : Int) - 16 - 8) with
            | error e4 =>
              rw [h4] at h
              simp only [] at h
              cases h
              exact Or.inl rfl
            | ok v4 =>
              obtain ⟨size, r''⟩ := v4
              rw [h4] at h
              simp only [] at h
              exact walkLoop_v2Block_provenance _ _ _ _ _ h

/-- Witness for the amended C6 at `fileC6`: the failed parse leaves the
complete block decoded from the first pair, which is indeed a successful
`parse_v2_block` result. -/
theorem c6_amended_witness :
    (SigInfo.mk 60 (-1) (-1) ⟨[signerC6]⟩).v2Block = SigInfo.init.v2Block ∨
      ∃ (len : Nat) (p q : Int),
        parseV2Block ((Stream.ofList fileC6).len + 1) (Stream.ofList fileC6) len p =
          .ok ((SigInfo.mk 60 (-1) (-1) ⟨[signerC6]⟩).v2Block, q) :=
  c6_amended (Stream.ofList fileC6) SigInfo.init
    (SigInfo.mk 60 (-1) (-1) ⟨[signerC6]⟩) .shortRead (by decide)

/-- C7 (amended): `has_v2_block()` and `has_v3_block()` are false on a
freshly constructed `siginfo`, and they remain false (the state is
entirely unchanged) when `parse` fails at the locator stage — no EOCD
magic found, or the signing-block magic absent at the expected offset.
(A parse that fails *during* the pair walk can leave a flag set; see the
counterexample.) -/
theorem c7_amended :
    (SigInfo.init.hasV2Block = false ∧ SigInfo.init.hasV3Block = false) ∧
    (∀ (s : Stream) (si : SigInfo),
      reverseFindBytes s eocdMagic = .ok (-1) → parse s si = (si, some .notZip)) ∧
    (∀ (s : Stream) (si : SigInfo) (m : Int) (cd : Nat) (r r' : Int) (magic : List Nat),
      reverseFindBytes s eocdMagic = .ok m → m ≠ -1 →
      readLe 4 s (m + 16) = .ok (cd, r) →
      readBytes 16 s ((cd : Int) - 16) = .ok (magic, r') →
      magic ≠ apkMagic →
      parse s si = (si, some .magicMismatch)) := by
  refine ⟨⟨rfl, rfl⟩, ?_, ?_⟩
  · intro s si h
    unfold parse
    rw [h]
    simp only []
    rw [if_pos trivial]
  · intro s si m cd r r' magic h1 hm h2 h3 hmg
    unfold parse
    rw [h1]
    simp only []
    rw [if_neg hm, h2]
    simp only []
    rw [h3]
    simp only []
    rw [if_pos hmg]

/-- Witness for the amended C7: the fresh flags, a three-byte stream with
no EOCD magic, and `fileMagicBad` whose EOCD points at zeros instead of
the APK magic. -/
theorem c7_amended_witness :
    ((SigInfo.init.hasV2Block = false ∧ SigInfo.init.hasV3Block = false) ∧
      parse (Stream.ofList [1, 2, 3]) SigInfo.init = (SigInfo.init, some .notZip)) ∧
      parse (Stream.ofList fileMagicBad) SigInfo.init = (SigInfo.init, some .magicMismatch) :=
  ⟨⟨c7_amended.1, c7_amended.2.1 (Stream.ofList [1, 2, 3]) SigInfo.init (by decide)⟩,
    c7_amended.2.2 (Stream.ofList fileMagicBad) SigInfo.init 20 16 40 16
      (List.replicate 16 0) (by decide) (by decide) (by decide) (by decide) (by decide)⟩

/-- C9 (amended): a zero-length pattern is not an error: after the
initial seek, `reverse_find_bytes` immediately returns the not-found
sentinel `-1` (an exception arises from the seek only for a negative
start other than the `-1` default). -/
theorem c9_amended (s : Stream) (start : Int) (h : start = -1 ∨ 0 ≤ start) :
    reverseFindBytes s [] start = .ok (-1) := by
  unfold reverseFindBytes
  rcases h with rfl | h0
  · rw [if_pos rfl]
    unfold reverseFindBytes.rfbStart
    rw [if_pos (show ([] : List Nat).length = 0 from rfl)]
  · by_cases he : start = -1
    · rw [if_pos he]
      unfold reverseFindBytes.rfbStart
      rw [if_pos (show ([] : List Nat).length = 0 from rfl)]
    · rw [if_neg he, if_neg (by omega : ¬ start < 0)]
      unfold reverseFindBytes.rfbStart
      rw [if_pos (show ([] : List Nat).length = 0 from rfl)]

/-- Witness for the amended C9 at a concrete stream and the default
start. -/
theorem c9_amended_witness :
    reverseFindBytes (Stream.ofList [7, 7, 7, 7]) [] (-1) = .ok (-1) :=
  c9_amended (Stream.ofList [7, 7, 7, 7]) (-1) (Or.inl rfl)

/-- Witness for the amended C1 at a concrete SignedData with two digests,
one certificate and one attribute. -/
theorem c1_amended_witness :
    parseV2SignedData 10 (Stream.ofList (encodeSignedData sdC1w ++ [0, 0, 0, 0])) 12 0 =
      .ok (sdC1w, (0 : Int) + ((encodeSignedData sdC1w).length : Int) + 4) :=
  c1_amended 12 10 (by decide) (by decide) (by decide) (by decide) (by decide) (by decide)

end Apksig
